import Mathlib

/-!
Verification of the boundary-marshaling layer of DecisionCentralAzure
(src/app.py): the literal codec (`convertAtString`, `convertOut`), the wire
decoder (`convertIn`), and the JSON result normalizer inside
`decision_service` and `decision_service_table`.

Modelling conventions:
- Python runtime values crossing the codec are embedded as the inductive
  `PyVal`.  Python `float` is embedded as `ℚ` (exact arithmetic; the codec
  only ever manipulates values on the microsecond grid, where IEEE rounding
  is not observable in the produced tokens), `int` as `ℤ`, `datetime.date`,
  `datetime.datetime`, `datetime.time` by their components,
  `datetime.timedelta` by its total microsecond count (the resolution of
  Python timedeltas), and the 4-tuple interval representation by `tuple4`.
- Python strings are `String`; slicing `s[2:-1]` is modelled on the
  character list `s.data`.
- Mutation of dicts/lists by `convertOut` is modelled twice: `convertOut`
  gives the value-level (purely functional) semantics, and `hElemOut` below
  gives a small heap semantics that makes the in-place update and aliasing
  of the Python code observable.
-/

/-! ## Definitions -/

mutual
/-- Python runtime values as they flow through the marshaling layer of
src/app.py.  Containers use the mutually inductive `PyList`/`PyDict` so that
all recursions stay structural. -/
inductive PyVal where
  | none
  | bool (b : Bool)
  | int (n : ℤ)
  | float (q : ℚ)
  | str (s : String)
  | date (y m d : ℕ)
  | datetime (y mo d h mi s us : ℕ)
  | time (h mi s us : ℕ)
  | timedelta (micros : ℤ)
  | tuple4 (lowEnd : String) (low high : PyVal) (highEnd : String)
  | list (xs : PyList)
  | dict (kvs : PyDict)

inductive PyList where
  | nil
  | cons (v : PyVal) (tl : PyList)

inductive PyDict where
  | nil
  | cons (k : String) (v : PyVal) (tl : PyDict)
end

deriving instance DecidableEq for PyVal, PyList, PyDict

/-- The character of a single decimal digit. -/
def digitChar (n : ℕ) : Char := Char.ofNat (48 + n)

/-- Numeric value of a digit character. -/
def chVal (c : Char) : ℕ := c.toNat - 48

/-- Value of a digit string, most significant first. -/
def digitsVal (l : List Char) : ℕ := l.foldl (fun a c => a * 10 + chVal c) 0

/-- Fueled unpadded decimal rendering (fuel keeps the recursion structural,
hence kernel-reducible). -/
def natCharsGo : ℕ → ℕ → List Char
  | 0, _ => []
  | fuel + 1, n => if n < 10 then [digitChar n] else natCharsGo fuel (n / 10) ++ [digitChar (n % 10)]

/-- Unpadded decimal rendering of a natural number, as Python `%d`. -/
def natChars (n : ℕ) : List Char := natCharsGo (n + 1) n

/-- Unpadded decimal rendering as a string. -/
def natStr (n : ℕ) : String := String.mk (natChars n)

/-- Python `%d` of a (possibly negative) integer. -/
def intStr (n : ℤ) : String := (if n < 0 then "-" else "") ++ natStr n.natAbs

/-- Python `%02d`. -/
def pad2 (n : ℕ) : List Char := [digitChar (n / 10), digitChar (n % 10)]

/-- Python `%04d`. -/
def pad4 (n : ℕ) : List Char :=
  [digitChar (n / 1000), digitChar (n / 100 % 10), digitChar (n / 10 % 10), digitChar (n % 10)]

/-- Python `%06d`. -/
def pad6 (n : ℕ) : List Char :=
  [digitChar (n / 100000), digitChar (n / 10000 % 10), digitChar (n / 1000 % 10),
   digitChar (n / 100 % 10), digitChar (n / 10 % 10), digitChar (n % 10)]

/-- Consume one expected character. -/
def expectChar (c : Char) : List Char → Option (List Char)
  | [] => Option.none
  | x :: xs => if x = c then some xs else Option.none

/-- Consume exactly two decimal digits. -/
def digit2 : List Char → Option (ℕ × List Char)
  | a :: b :: rest =>
    if a.isDigit && b.isDigit then some (chVal a * 10 + chVal b, rest) else Option.none
  | _ => Option.none

/-- Consume exactly four decimal digits. -/
def digit4 : List Char → Option (ℕ × List Char)
  | a :: b :: c :: d :: rest =>
    if a.isDigit && b.isDigit && c.isDigit && d.isDigit then
      some (((chVal a * 10 + chVal b) * 10 + chVal c) * 10 + chVal d, rest)
    else Option.none
  | _ => Option.none

/-- Consume a maximal nonempty run of decimal digits. -/
def parseNatPart (cs : List Char) : Option (ℕ × List Char) :=
  if (cs.takeWhile Char.isDigit).isEmpty then Option.none
  else some (digitsVal (cs.takeWhile Char.isDigit), cs.dropWhile Char.isDigit)

/-- `datetime.date.isoformat()`: `YYYY-MM-DD`. -/
def dateIso (y m d : ℕ) : String :=
  String.mk (pad4 y) ++ "-" ++ String.mk (pad2 m) ++ "-" ++ String.mk (pad2 d)

/-- `datetime.time.isoformat()`: `HH:MM:SS` with `.ffffff` appended exactly
when the microsecond field is nonzero. -/
def timeIso (h mi s us : ℕ) : String :=
  String.mk (pad2 h) ++ ":" ++ String.mk (pad2 mi) ++ ":" ++ String.mk (pad2 s) ++
    (if us = 0 then "" else "." ++ String.mk (pad6 us))

/-- Python float `%` (both operands nonnegative here): `x - y * floor(x / y)`. -/
def fmod (x y : ℚ) : ℚ := x - y * ⌊x / y⌋

/-- Python `%f` formatting with 6 decimal places.  On the microsecond grid
(the only values `convertOut` ever formats) the float value has at most six
decimal places, so truncation agrees with Python's rounding. -/
def fmt6 (q : ℚ) : String :=
  natStr (⌊q * 1000000⌋.toNat / 1000000) ++ "." ++
    String.mk (pad6 (⌊q * 1000000⌋.toNat % 1000000))

/-- The `datetime.timedelta` branch of `convertOut` (src/app.py lines
298-310), with `total_seconds()` taken exactly: `micros / 10^6`.  Python's
`int()` truncates, which on the nonnegative values produced here is the
floor, and `int / int` division of nonnegative ints followed by `int()` is
integer division. -/
def dayTimeToken (micros : ℤ) : String :=
  let totalSeconds : ℚ := (micros : ℚ) / 1000000
  let sign : String := if totalSeconds < 0 then "-" else ""
  let duration : ℚ := if totalSeconds < 0 then -totalSeconds else totalSeconds
  let secs : ℚ := fmod duration 60
  let d1 : ℤ := ⌊duration / 60⌋
  let mins : ℤ := d1 % 60
  let d2 : ℤ := d1 / 60
  let hours : ℤ := d2 % 24
  let days : ℤ := d2 / 24
  "@\"" ++ sign ++ "P" ++ intStr days ++ "DT" ++ intStr hours ++ "H" ++ intStr mins ++ "M" ++
    fmt6 secs ++ "S\""

/-- The `int` branch of `convertOut` (src/app.py lines 316-323): an integer is
a year-month duration in months. -/
def yearMonthToken (n : ℤ) : String :=
  let sign : String := if n < 0 then "-" else ""
  let a : ℕ := n.natAbs
  let years : ℕ := a / 12
  let months : ℕ := a % 12
  "@\"" ++ sign ++ "P" ++ natStr years ++ "Y" ++ natStr months ++ "M\""

/-- Models the Python builtin `str()` as applied by the interval branch of
`convertOut` to the interval bounds.  Faithful for the scalar kinds that
occur as interval bounds (strings render without quotes, ints as `%d`,
dates/times via isoformat); the float case and the container cases are
deterministic placeholders (Python's shortest-round-trip float repr is not
modelled — no claim below depends on those renderings). -/
def pyStr : PyVal → String
  | .str s => s
  | .int n => intStr n
  | .bool b => cond b "True" "False"
  | .none => "None"
  | .float q => intStr q.num ++ "/" ++ natStr q.den
  | .date y m d => dateIso y m d
  | .datetime y mo d h mi s us => dateIso y mo d ++ " " ++ timeIso h mi s us
  | .time h mi s us => timeIso h mi s us
  | .timedelta m => "timedelta(" ++ intStr m ++ ")"
  | .tuple4 _ _ _ _ => "tuple"
  | .list _ => "list"
  | .dict _ => "dict"

mutual
/-- Embeds `convertOut` (src/app.py lines 291-338).  Branch notes, matching
the Python `isinstance` cascade:
- `datetime.datetime` is a subclass of `datetime.date`, so a datetime is
  caught by the *first* branch; its `isoformat()` nevertheless yields
  `date T time` (the dedicated datetime branch on lines 294-295 is dead
  code with identical output), embedded here as the `.datetime` case;
- `bool` is a subclass of `int` but its branch comes first, so booleans
  encode as `true`/`false` and never as year-month durations;
- any remaining `int` is encoded as a year-month duration token;
- a 4-tuple is an interval, emitted *without* a closing quote (line 326);
- dicts and lists are encoded element-wise (the in-place nature of that
  update is modelled separately by `hElemOut`). -/
def convertOut : PyVal → PyVal
  | .date y m d => .str ("@\"" ++ dateIso y m d ++ "\"")
  | .datetime y mo d h mi s us => .str ("@\"" ++ dateIso y mo d ++ "T" ++ timeIso h mi s us ++ "\"")
  | .time h mi s us => .str ("@\"" ++ timeIso h mi s us ++ "\"")
  | .timedelta micros => .str (dayTimeToken micros)
  | .bool b => .str (cond b "true" "false")
  | .int n => .str (yearMonthToken n)
  | .tuple4 lowEnd low high highEnd =>
    .str ("@\"" ++ lowEnd ++ pyStr low ++ " .. " ++ pyStr high ++ highEnd)
  | .none => .str "null"
  | .dict kvs => .dict (convertOutDict kvs)
  | .list xs => .list (convertOutList xs)
  | .float q => .float q
  | .str s => .str s

/-- Element-wise encoding of a dict (src/app.py lines 329-332). -/
def convertOutDict : PyDict → PyDict
  | .nil => .nil
  | .cons k v tl => .cons k (convertOut v) (convertOutDict tl)

/-- Element-wise encoding of a list (src/app.py lines 333-336). -/
def convertOutList : PyList → PyList
  | .nil => .nil
  | .cons v tl => .cons (convertOut v) (convertOutList tl)
end

/-- Consume `HH:MM:SS` optionally followed by `.ffffff` (exactly six
fractional digits), the shapes produced by `isoformat`. -/
def parseTimeTail (cs : List Char) : Option (ℕ × ℕ × ℕ × ℕ) :=
  match digit2 cs with
  | Option.none => Option.none
  | some (h, cs) =>
    match expectChar ':' cs with
    | Option.none => Option.none
    | some cs =>
      match digit2 cs with
      | Option.none => Option.none
      | some (mi, cs) =>
        match expectChar ':' cs with
        | Option.none => Option.none
        | some cs =>
          match digit2 cs with
          | Option.none => Option.none
          | some (s, cs) =>
            match cs with
            | [] => some (h, mi, s, 0)
            | '.' :: u1 :: u2 :: u3 :: u4 :: u5 :: u6 :: [] =>
              if u1.isDigit && u2.isDigit && u3.isDigit && u4.isDigit && u5.isDigit && u6.isDigit
              then some (h, mi, s, digitsVal [u1, u2, u3, u4, u5, u6])
              else Option.none
            | _ => Option.none

/-- Consume `YYYY-MM-DD` and return the components, with the rest. -/
def parseDatePart (cs : List Char) : Option (ℕ × ℕ × ℕ × List Char) :=
  match digit4 cs with
  | Option.none => Option.none
  | some (y, cs) =>
    match expectChar '-' cs with
    | Option.none => Option.none
    | some cs =>
      match digit2 cs with
      | Option.none => Option.none
      | some (m, cs) =>
        match expectChar '-' cs with
        | Option.none => Option.none
        | some cs =>
          match digit2 cs with
          | Option.none => Option.none
          | some (d, cs) => some (y, m, d, cs)

/-- An ISO date literal. -/
def parseDate (cs : List Char) : Option PyVal :=
  match parseDatePart cs with
  | some (y, m, d, []) => some (.date y m d)
  | _ => Option.none

/-- An ISO datetime literal `dateTtime`. -/
def parseDateTime (cs : List Char) : Option PyVal :=
  match parseDatePart cs with
  | some (y, m, d, 'T' :: rest) =>
    match parseTimeTail rest with
    | some (h, mi, s, us) => some (.datetime y m d h mi s us)
    | Option.none => Option.none
  | _ => Option.none

/-- An ISO time literal. -/
def parseTime (cs : List Char) : Option PyVal :=
  match parseTimeTail cs with
  | some (h, mi, s, us) => some (.time h mi s us)
  | Option.none => Option.none

/-- An optional leading minus sign. -/
def parseSign : List Char → Bool × List Char
  | '-' :: rest => (true, rest)
  | cs => (false, cs)

/-- A day-time duration literal `[-]P<d>DT<h>H<m>M<s>.<6 digits>S`, the shape
produced by the timedelta branch of `convertOut`. -/
def parseDayTime (cs : List Char) : Option PyVal :=
  let sc := parseSign cs
  match expectChar 'P' sc.2 with
  | Option.none => Option.none
  | some cs =>
    match parseNatPart cs with
    | Option.none => Option.none
    | some (days, cs) =>
      match expectChar 'D' cs with
      | Option.none => Option.none
      | some cs =>
        match expectChar 'T' cs with
        | Option.none => Option.none
        | some cs =>
          match parseNatPart cs with
          | Option.none => Option.none
          | some (hours, cs) =>
            match expectChar 'H' cs with
            | Option.none => Option.none
            | some cs =>
              match parseNatPart cs with
              | Option.none => Option.none
              | some (mins, cs) =>
                match expectChar 'M' cs with
                | Option.none => Option.none
                | some cs =>
                  match parseNatPart cs with
                  | Option.none => Option.none
                  | some (secs, cs) =>
                    match cs with
                    | '.' :: u1 :: u2 :: u3 :: u4 :: u5 :: u6 :: 'S' :: [] =>
                      if u1.isDigit && u2.isDigit && u3.isDigit && u4.isDigit &&
                         u5.isDigit && u6.isDigit then
                        let am : ℕ :=
                          (((days * 24 + hours) * 60 + mins) * 60 + secs) * 1000000 +
                            digitsVal [u1, u2, u3, u4, u5, u6]
                        some (.timedelta (if sc.1 then -(am : ℤ) else (am : ℤ)))
                      else Option.none
                    | _ => Option.none

/-- A year-month duration literal `[-]P<y>Y<m>M`, represented (as in the
engine) by its total month count as an int. -/
def parseYearMonth (cs : List Char) : Option PyVal :=
  let sc := parseSign cs
  match expectChar 'P' sc.2 with
  | Option.none => Option.none
  | some cs =>
    match parseNatPart cs with
    | Option.none => Option.none
    | some (years, cs) =>
      match expectChar 'Y' cs with
      | Option.none => Option.none
      | some cs =>
        match parseNatPart cs with
        | Option.none => Option.none
        | some (months, cs) =>
          match expectChar 'M' cs with
          | some [] =>
            let am : ℕ := years * 12 + months
            some (.int (if sc.1 then -(am : ℤ) else (am : ℤ)))
          | _ => Option.none

/-- Split an interval body at the first ` .. ` separator. -/
def splitBounds : List Char → Option (List Char × List Char)
  | ' ' :: '.' :: '.' :: ' ' :: rest => some ([], rest)
  | c :: rest =>
    match splitBounds rest with
    | some (l, r) => some (c :: l, r)
    | Option.none => Option.none
  | [] => Option.none

/-- An interval bound: a digit run is a number, anything else is kept as
text (bound expression parsing is abstracted; no claim depends on it). -/
def parseBound (bs : List Char) : PyVal :=
  if !bs.isEmpty && bs.all Char.isDigit then .float ((digitsVal bs : ℕ) : ℚ)
  else .str (String.mk bs)

/-- An interval literal `[lo .. hi]` (or any mix of open/closed bracket
ends).  The closing bracket is required: without it the literal is
malformed and parsing fails. -/
def parseInterval (cs : List Char) : Option PyVal :=
  match cs with
  | c :: rest =>
    if c = '[' ∨ c = '(' then
      match rest.getLast? with
      | some e =>
        if e = ']' ∨ e = ')' then
          match splitBounds rest.dropLast with
          | some (lo, hi) =>
            some (.tuple4 (String.mk [c]) (parseBound lo) (parseBound hi) (String.mk [e]))
          | Option.none => Option.none
        else Option.none
      | Option.none => Option.none
    else Option.none
  | [] => Option.none

/-- Modelled from the spec: the external minimal-expression parser
(`parser.sFeelParse`, the pySFeel collaborator — not part of this
repository).  Per §4.1/§6 of the spec it parses a single temporal,
duration or interval constant (e.g. `2024-01-15` to the Date value
2024-01-15) and reports an error status on anything else; `Except.error`
stands for a status carrying `errors`. -/
def sFeelParse (s : String) : Except Unit PyVal :=
  match parseDate s.data with
  | some v => .ok v
  | Option.none =>
    match parseDateTime s.data with
    | some v => .ok v
    | Option.none =>
      match parseTime s.data with
      | some v => .ok v
      | Option.none =>
        match parseDayTime s.data with
        | some v => .ok v
        | Option.none =>
          match parseYearMonth s.data with
          | some v => .ok v
          | Option.none =>
            match parseInterval s.data with
            | some v => .ok v
            | Option.none => .error ()

/-- Python slicing `s[2:-1]` (src/app.py line 251), on the character list. -/
def stripAt (s : String) : String := String.mk (s.data.drop 2).dropLast

/-- Embeds `convertAtString` (src/app.py lines 249-255): strip the first two
and the last character, hand the body to the external parser, and fall back
to the original token string when the parser reports errors. -/
def convertAtString (thisString : String) : PyVal :=
  match sFeelParse (stripAt thisString) with
  | .error _ => .str thisString
  | .ok newValue => newValue

/-- The `@"..."` shape test used by `convertIn` (src/app.py lines 274, 282,
286): `value[0:2] == '@\"' and value[-1] == '\"'`.  The conjunction
short-circuits in Python, so the `[-1]` index is only reached on strings of
length at least 2 (on which it is safe); `String.takeRight` mirrors it. -/
def isAtString (s : String) : Bool := s.take 2 == "@\"" && s.takeRight 1 == "\""

mutual
/-- Embeds `convertIn` (src/app.py lines 269-288): dicts and lists are
rewritten element-wise by the rules of `convertInElem`; a top-level string
of `@"..."` shape is decoded; every other top-level value (including a bare
int or bool) is returned unchanged. -/
def convertIn : PyVal → PyVal
  | .dict kvs => .dict (convertInDict kvs)
  | .list xs => .list (convertInList xs)
  | .str s => if isAtString s then convertAtString s else .str s
  | v => v

/-- The per-element conversion inside a dict or list (the branch cascade of
src/app.py lines 272-277 and 280-285): Python's `isinstance(x, int)` is
true for `bool` as well, so container elements that are bools are promoted
to floats (`float(True) = 1.0`) just like ints; `@"..."`-shaped strings are
decoded; nested dicts/lists recurse; everything else is untouched. -/
def convertInElem : PyVal → PyVal
  | .bool b => .float (cond b 1 0)
  | .int n => .float (n : ℚ)
  | .str s => if isAtString s then convertAtString s else .str s
  | .dict kvs => .dict (convertInDict kvs)
  | .list xs => .list (convertInList xs)
  | v => v

/-- Element-wise decode of a dict (src/app.py lines 270-277). -/
def convertInDict : PyDict → PyDict
  | .nil => .nil
  | .cons k v tl => .cons k (convertInElem v) (convertInDict tl)

/-- Element-wise decode of a list (src/app.py lines 278-285). -/
def convertInList : PyList → PyList
  | .nil => .nil
  | .cons v tl => .cons (convertInElem v) (convertInList tl)
end

/-- The inner character run of the day-time duration token (between the
`@"` prefix and the closing quote). -/
def dayTimeBody (micros : ℤ) : List Char :=
  (if micros < 0 then ['-'] else []) ++
    'P' :: (natChars (micros.natAbs / 86400000000) ++
      'D' :: 'T' :: (natChars (micros.natAbs / 3600000000 % 24) ++
        'H' :: (natChars (micros.natAbs / 60000000 % 60) ++
          'M' :: (natChars (micros.natAbs / 1000000 % 60) ++
            '.' :: (pad6 (micros.natAbs % 1000000) ++ ['S'])))))

/-- The inner character run of the year-month duration token. -/
def yearMonthBody (n : ℤ) : List Char :=
  (if n < 0 then ['-'] else []) ++
    'P' :: (natChars (n.natAbs / 12) ++ 'Y' :: (natChars (n.natAbs % 12) ++ ['M']))

/-- One step into a container: a dict key or a list index. -/
inductive PathElem where
  | key (k : String)
  | idx (i : ℕ)

deriving DecidableEq

/-- First value stored under a key (Python dict subscript). -/
def PyDict.lookup : PyDict → String → Option PyVal
  | .nil, _ => Option.none
  | .cons k v tl, key => if k == key then some v else tl.lookup key

/-- Value at a list index (Python list subscript). -/
def PyList.get? : PyList → ℕ → Option PyVal
  | .nil, _ => Option.none
  | .cons v _, 0 => some v
  | .cons _ tl, n + 1 => tl.get? n

/-- The value reached from `v` by following a path of dict keys and list
indices; `Option.none` when the path leaves the dict/list structure. -/
def getPath : PyVal → List PathElem → Option PyVal
  | v, [] => some v
  | v, .key k :: p =>
    match v with
    | .dict kvs =>
      match kvs.lookup k with
      | some v2 => getPath v2 p
      | Option.none => Option.none
    | _ => Option.none
  | v, .idx i :: p =>
    match v with
    | .list xs =>
      match xs.get? i with
      | some v2 => getPath v2 p
      | Option.none => Option.none
    | _ => Option.none

/-- A RuleTrace `(executedDecision, decisionTable, ruleId)` 3-tuple. -/
structure RuleTrace where
  decision : String
  table : String
  ruleId : String

deriving DecidableEq

/-- The `'Executed Rule'` entry of a decision record: a single trace tuple
or a list of them (depending on the hit policy). -/
inductive RuleVal where
  | single (t : RuleTrace)
  | multi (ts : List RuleTrace)

deriving DecidableEq

/-- One record produced by the engine: a dict with a `'Result'` dict and
(usually) an `'Executed Rule'` entry; `executedRule = Option.none` models a
record dict without that key. -/
structure DRecord where
  result : List (String × PyVal)
  executedRule : Option RuleVal

/-- A DecideOutcome: a single record or a list of records. -/
inductive Outcome where
  | one (r : DRecord)
  | seq (rs : List DRecord)

/-- The engine status dict. -/
abbrev Status := List (String × PyVal)

/-- The Python test `'errors' in status` (src/app.py lines 851, 972). -/
def hasErrors (st : Status) : Bool := st.any (fun kv => kv.1 == "errors")

/-- Python runtime faults reachable in the JSON normalizer paths. -/
inductive PyErr where
  | indexError
  | typeError
  | keyError
  | valueError

deriving DecidableEq

/-- An element appended to the response's `'Executed Rule'` list: a
`[decision, table, ruleId]` triple list, a bare string, or a bare trace
tuple (the last two arise from the component-wise `append` calls in the
single-record branches). -/
inductive ERElem where
  | triple (d t r : String)
  | strElem (s : String)
  | traceElem (t : RuleTrace)

deriving DecidableEq

/-- The `[decision, table, ruleId]` sub-list appended for one trace. -/
def ERElem.ofTrace (t : RuleTrace) : ERElem := .triple t.decision t.table t.ruleId

/-- The envelope assembled by the JSON branches (`returnData`). -/
structure Envelope where
  executedRule : List ERElem
  result : List (String × PyVal)
  status : Status

/-- The result-encoding loop `returnData['Result'][v] = convertOut(value)`
(src/app.py lines 893-896 and 1023-1026). -/
def encodeResult (res : List (String × PyVal)) : List (String × PyVal) :=
  res.map (fun kv => (kv.1, convertOut kv.2))

/-- The `'Executed Rule'` flattening loop over a list outcome (src/app.py
lines 872-886, identical on lines 993-1007): per record, a list value
contributes one `[d, t, r]` triple per trace and a tuple value contributes
one triple; a record without the key raises KeyError. -/
def flattenSeqER : List DRecord → Except PyErr (List ERElem)
  | [] => .ok []
  | r :: rs =>
    match r.executedRule with
    | Option.none => .error .keyError
    | some (.multi ts) => (flattenSeqER rs).map (fun rest => ts.map ERElem.ofTrace ++ rest)
    | some (.single t) => (flattenSeqER rs).map (fun rest => ERElem.ofTrace t :: rest)

/-- The JSON branch of `decision_service` (src/app.py lines 851-898), as a
function of the engine's `(status, newData)`.  Notes:
- an error status short-circuits with an empty result and executed-rule
  list (lines 851-857);
- for a list outcome the flattening loop runs first, then line 887 indexes
  `newData[-1]` unconditionally — an IndexError on an empty list;
- for a single record, line 888 tests for the `'Executed Rule'` key; a
  tuple value has its three components appended *individually* (lines
  889-892, a flat `[d, t, r]`), and a list value is tuple-unpacked into
  three variables, appending the three traces themselves (ValueError
  unless it has exactly three). -/
def decisionServiceJson (status : Status) (newData : Outcome) : Except PyErr Envelope :=
  if hasErrors status then
    .ok { executedRule := [], result := [], status := status }
  else
    match newData with
    | .seq rs =>
      match flattenSeqER rs with
      | .error e => .error e
      | .ok er =>
        match rs.getLast? with
        | Option.none => .error .indexError
        | some last =>
          .ok { executedRule := er, result := encodeResult last.result, status := status }
    | .one r =>
      match r.executedRule with
      | Option.none => .ok { executedRule := [], result := encodeResult r.result, status := status }
      | some (.single t) =>
        .ok { executedRule := [.strElem t.decision, .strElem t.table, .strElem t.ruleId],
              result := encodeResult r.result, status := status }
      | some (.multi [t1, t2, t3]) =>
        .ok { executedRule := [.traceElem t1, .traceElem t2, .traceElem t3],
              result := encodeResult r.result, status := status }
      | some (.multi _) => .error .valueError

/-- The JSON branch of `decision_service_table` (src/app.py lines 972-1028).
Differences from `decisionServiceJson`:
- line 1008 guards `newData = newData[-1]` with `len(newData) > 0`, but on
  an empty list `newData` then *stays* a list and line 1024 subscripts it
  with the string `'Result'` — a TypeError;
- the single-record branch handles a list-valued `'Executed Rule'` with a
  proper per-trace loop (lines 1011-1017) but still appends a tuple value
  component-wise (lines 1019-1022); reading the key raises KeyError when
  absent. -/
def decisionServiceTableJson (status : Status) (newData : Outcome) : Except PyErr Envelope :=
  if hasErrors status then
    .ok { executedRule := [], result := [], status := status }
  else
    match newData with
    | .seq rs =>
      match flattenSeqER rs with
      | .error e => .error e
      | .ok er =>
        match rs.getLast? with
        | Option.none => .error .typeError
        | some last =>
          .ok { executedRule := er, result := encodeResult last.result, status := status }
    | .one r =>
      match r.executedRule with
      | Option.none => .error .keyError
      | some (.multi ts) =>
        .ok { executedRule := ts.map ERElem.ofTrace,
              result := encodeResult r.result, status := status }
      | some (.single t) =>
        .ok { executedRule := [.strElem t.decision, .strElem t.table, .strElem t.ruleId],
              result := encodeResult r.result, status := status }

/-- The `'Executed Rule'` list of a successful envelope (empty on a fault). -/
def erOf : Except PyErr Envelope → List ERElem
  | .ok env => env.executedRule
  | .error _ => []

/-- The fault of a failed normalization, if any. -/
def errOf : Except PyErr Envelope → Option PyErr
  | .ok _ => Option.none
  | .error e => some e

/-- The flattening described by the spec (§4.4 step 2): one `[d, t, r]`
triple per trace, across the records in order. -/
def specTriples : List DRecord → List ERElem
  | [] => []
  | r :: rs =>
    (match r.executedRule with
     | some (.multi ts) => ts.map ERElem.ofTrace
     | some (.single t) => [ERElem.ofTrace t]
     | Option.none => []) ++ specTriples rs

/-- Extracts the wire string produced by `convertOut` (the round-trip
claims compose `convertAtString` with `convertOut`, and `convertOut`
returns a Python string for every scalar input, embedded as `.str`). -/
def outStr (v : PyVal) : String :=
  match convertOut v with
  | .str s => s
  | _ => ""

/-- Object reference in the heap model. -/
abbrev Ref := ℕ

/-- A dict/list element: an immutable scalar value, or a reference to a
nested container object on the heap. -/
inductive HElem where
  | val (v : PyVal)
  | ref (r : Ref)

deriving DecidableEq

/-- A heap object: a dict or a list of elements. -/
inductive HObj where
  | hdict (kvs : List (String × HElem))
  | hlist (xs : List HElem)

deriving DecidableEq

/-- A heap: references bound to container objects. -/
abbrev Heap := List (Ref × HObj)

/-- The object a reference points to. -/
def lookupHeap (h : Heap) (r : Ref) : Option HObj :=
  (h.find? (fun p => p.1 == r)).map (fun p => p.2)

/-- Overwrite the object stored at a reference (in-place assignment). -/
def updateHeap (h : Heap) (r : Ref) (o : HObj) : Heap :=
  h.map (fun p => if p.1 == r then (r, o) else p)

/-- Thread the heap through an element-wise conversion of a dict's entries,
in order (the `for item in thisValue` loop of src/app.py lines 330-331). -/
def hMapPairs (f : Heap → HElem → Heap × HElem) :
    Heap → List (String × HElem) → Heap × List (String × HElem)
  | h, [] => (h, [])
  | h, (k, e) :: tl =>
    let p := f h e
    let q := hMapPairs f p.1 tl
    (q.1, (k, p.2) :: q.2)

/-- Same for a list's elements (src/app.py lines 334-335). -/
def hMapList (f : Heap → HElem → Heap × HElem) : Heap → List HElem → Heap × List HElem
  | h, [] => (h, [])
  | h, e :: tl =>
    let p := f h e
    let q := hMapList f p.1 tl
    (q.1, p.2 :: q.2)

/-- Heap semantics of one `convertOut(x)` call (src/app.py lines 291-338)
on an element `x`: a scalar is encoded by the value-level `convertOut`; a
dict or list reference has its elements converted in place — the object
bound to `r` is overwritten and the *same reference* is returned (Python's
`thisValue[...] = convertOut(...)` followed by `return thisValue`).  The
fuel argument only bounds the nesting depth so that the recursion is
structural; Python's own recursion corresponds to the limit of ample fuel
(it would not terminate on a cyclic heap either). -/
def hElemOut : ℕ → Heap → HElem → Heap × HElem
  | _, h, .val v => (h, .val (convertOut v))
  | 0, h, .ref r => (h, .ref r)
  | fuel + 1, h, .ref r =>
    match lookupHeap h r with
    | some (.hdict kvs) =>
      let p := hMapPairs (hElemOut fuel) h kvs
      (updateHeap p.1 r (.hdict p.2), .ref r)
    | some (.hlist xs) =>
      let p := hMapList (hElemOut fuel) h xs
      (updateHeap p.1 r (.hlist p.2), .ref r)
    | Option.none => (h, .ref r)

/-! ## Theorems -/

theorem digitChar_isDigit {n : ℕ} (h : n < 10) : (digitChar n).isDigit = true := by
  interval_cases n <;> decide

theorem chVal_digitChar {n : ℕ} (h : n < 10) : chVal (digitChar n) = n := by
  interval_cases n <;> decide

theorem digitChar_ne {n : ℕ} {c : Char} (h : n < 10) (hc : c.isDigit = false) :
    digitChar n ≠ c := by
  intro he
  rw [← he] at hc
  rw [digitChar_isDigit h] at hc
  exact Bool.noConfusion hc

theorem natCharsGo_isDigit : ∀ fuel n, n < fuel → ∀ c ∈ natCharsGo fuel n, c.isDigit = true := by
  intro fuel
  induction fuel with
  | zero => intro n h; omega
  | succ fuel ih =>
    intro n h c hc
    rw [natCharsGo] at hc
    by_cases h10 : n < 10
    · rw [if_pos h10] at hc
      simp at hc
      exact hc ▸ digitChar_isDigit h10
    · rw [if_neg h10] at hc
      rcases List.mem_append.mp hc with h1 | h2
      · exact ih (n / 10) (by omega) c h1
      · simp at h2
        exact h2 ▸ digitChar_isDigit (Nat.mod_lt _ (by omega))

theorem natCharsGo_ne_nil : ∀ fuel n, 0 < fuel → natCharsGo fuel n ≠ [] := by
  intro fuel n h
  match fuel with
  | fuel + 1 =>
    rw [natCharsGo]
    by_cases h10 : n < 10
    · simp [h10]
    · simp [h10]

theorem digitsVal_from (l : List Char) :
    ∀ a : ℕ, l.foldl (fun a c => a * 10 + chVal c) a = a * 10 ^ l.length + digitsVal l := by
  induction l with
  | nil => intro a; simp [digitsVal]
  | cons c tl ih =>
    intro a
    rw [digitsVal, List.foldl_cons, List.foldl_cons, ih, ih (0 * 10 + chVal c)]
    simp [List.length_cons]
    ring

theorem digitsVal_append (l1 l2 : List Char) :
    digitsVal (l1 ++ l2) = digitsVal l1 * 10 ^ l2.length + digitsVal l2 := by
  rw [digitsVal, List.foldl_append, ← digitsVal, digitsVal_from]

theorem digitsVal_natCharsGo : ∀ fuel n, n < fuel → digitsVal (natCharsGo fuel n) = n := by
  intro fuel
  induction fuel with
  | zero => intro n h; omega
  | succ fuel ih =>
    intro n h
    rw [natCharsGo]
    by_cases h10 : n < 10
    · rw [if_pos h10]
      simp [digitsVal, chVal_digitChar h10]
    · rw [if_neg h10, digitsVal_append, ih (n / 10) (by omega)]
      simp [digitsVal, chVal_digitChar (Nat.mod_lt n (by omega))]
      omega

theorem natChars_isDigit (n : ℕ) : ∀ c ∈ natChars n, c.isDigit = true :=
  natCharsGo_isDigit (n + 1) n (Nat.lt_succ_self n)

theorem natChars_ne_nil (n : ℕ) : natChars n ≠ [] :=
  natCharsGo_ne_nil (n + 1) n (Nat.succ_pos n)

theorem digitsVal_natChars (n : ℕ) : digitsVal (natChars n) = n :=
  digitsVal_natCharsGo (n + 1) n (Nat.lt_succ_self n)

theorem takeWhile_append_all {p : Char → Bool} {l1 : List Char} (l2 : List Char)
    (h : ∀ c ∈ l1, p c = true) : (l1 ++ l2).takeWhile p = l1 ++ l2.takeWhile p := by
  induction l1 with
  | nil => simp
  | cons c tl ih =>
    simp only [List.cons_append, List.takeWhile_cons, h c (List.mem_cons_self c tl)]
    simp only [if_true]
    rw [ih (fun x hx => h x (List.mem_cons_of_mem c hx))]

theorem dropWhile_append_all {p : Char → Bool} {l1 : List Char} (l2 : List Char)
    (h : ∀ c ∈ l1, p c = true) : (l1 ++ l2).dropWhile p = l2.dropWhile p := by
  induction l1 with
  | nil => simp
  | cons c tl ih =>
    simp only [List.cons_append, List.dropWhile_cons, h c (List.mem_cons_self c tl)]
    exact ih (fun x hx => h x (List.mem_cons_of_mem c hx))

theorem pad2_isDigit {n : ℕ} (h : n < 100) : ∀ c ∈ pad2 n, c.isDigit = true := by
  intro c hc
  rw [pad2] at hc
  simp at hc
  rcases hc with h1 | h2
  · exact h1 ▸ digitChar_isDigit (by omega)
  · exact h2 ▸ digitChar_isDigit (Nat.mod_lt _ (by omega))

theorem pad4_isDigit {n : ℕ} (h : n < 10000) : ∀ c ∈ pad4 n, c.isDigit = true := by
  intro c hc
  rw [pad4] at hc
  simp at hc
  rcases hc with h1 | h1 | h1 | h1 <;>
    exact h1 ▸ digitChar_isDigit (by omega)

theorem pad6_isDigit {n : ℕ} (h : n < 1000000) : ∀ c ∈ pad6 n, c.isDigit = true := by
  intro c hc
  rw [pad6] at hc
  simp at hc
  rcases hc with h1 | h1 | h1 | h1 | h1 | h1 <;>
    exact h1 ▸ digitChar_isDigit (by omega)

theorem expectChar_cons_self (c : Char) (rest : List Char) :
    expectChar c (c :: rest) = some rest := by
  simp [expectChar]

theorem digit2_pad2 {m : ℕ} (h : m < 100) (rest : List Char) :
    digit2 (pad2 m ++ rest) = some (m, rest) := by
  rw [pad2]
  simp only [List.cons_append, List.nil_append, digit2,
    digitChar_isDigit (show m / 10 < 10 by omega),
    digitChar_isDigit (Nat.mod_lt m (by omega)), Bool.and_self, if_pos rfl]
  rw [chVal_digitChar (show m / 10 < 10 by omega), chVal_digitChar (Nat.mod_lt m (by omega))]
  have hm : m / 10 * 10 + m % 10 = m := by omega
  rw [hm]
  simp only [if_true]

theorem digit4_pad4 {m : ℕ} (h : m < 10000) (rest : List Char) :
    digit4 (pad4 m ++ rest) = some (m, rest) := by
  rw [pad4]
  simp only [List.cons_append, List.nil_append, digit4,
    digitChar_isDigit (show m / 1000 < 10 by omega),
    digitChar_isDigit (Nat.mod_lt (m / 100) (by omega)),
    digitChar_isDigit (Nat.mod_lt (m / 10) (by omega)),
    digitChar_isDigit (Nat.mod_lt m (by omega)), Bool.and_self, if_pos rfl]
  rw [chVal_digitChar (show m / 1000 < 10 by omega),
    chVal_digitChar (Nat.mod_lt (m / 100) (by omega)),
    chVal_digitChar (Nat.mod_lt (m / 10) (by omega)),
    chVal_digitChar (Nat.mod_lt m (by omega))]
  have hm : ((m / 1000 * 10 + m / 100 % 10) * 10 + m / 10 % 10) * 10 + m % 10 = m := by omega
  rw [hm]
  simp only [if_true]

theorem parseNatPart_natChars (n : ℕ) {c : Char} {rest : List Char} (hc : c.isDigit = false) :
    parseNatPart (natChars n ++ c :: rest) = some (n, c :: rest) := by
  rw [parseNatPart, takeWhile_append_all _ (natChars_isDigit n),
    dropWhile_append_all _ (natChars_isDigit n)]
  have h1 : (c :: rest).takeWhile Char.isDigit = [] := by
    simp [List.takeWhile_cons, hc]
  have h2 : (c :: rest).dropWhile Char.isDigit = c :: rest := by
    simp [List.dropWhile_cons, hc]
  rw [h1, h2, List.append_nil]
  simp [List.isEmpty_eq_false.mpr (natChars_ne_nil n), digitsVal_natChars]

theorem convertAtString_of_parse (s : String) (l : List Char) (v : PyVal)
    (hdata : s.data = '@' :: '"' :: (l ++ ['"'])) (hp : sFeelParse (String.mk l) = .ok v) :
    convertAtString s = v := by
  have hstrip : stripAt s = String.mk l := by
    rw [stripAt, hdata]
    simp [List.dropLast_concat]
  rw [convertAtString, hstrip, hp]

theorem convertAtString_of_fail (s : String) (l : List Char)
    (hdata : s.data = '@' :: '"' :: (l ++ ['"'])) (hp : sFeelParse (String.mk l) = .error ()) :
    convertAtString s = .str s := by
  have hstrip : stripAt s = String.mk l := by
    rw [stripAt, hdata]
    simp [List.dropLast_concat]
  rw [convertAtString, hstrip, hp]

theorem parseDatePart_pads {y m d : ℕ} (hy : y < 10000) (hm : m < 100) (hd : d < 100)
    (rest : List Char) :
    parseDatePart (pad4 y ++ '-' :: (pad2 m ++ '-' :: (pad2 d ++ rest))) =
      some (y, m, d, rest) := by
  simp only [parseDatePart, digit4_pad4 hy, digit2_pad2 hm, digit2_pad2 hd,
    expectChar_cons_self]

theorem dateIso_data (y m d : ℕ) :
    (dateIso y m d).data = pad4 y ++ '-' :: (pad2 m ++ '-' :: (pad2 d ++ [])) := by
  show ((pad4 y ++ ['-']) ++ pad2 m ++ ['-']) ++ pad2 d =
    pad4 y ++ '-' :: (pad2 m ++ '-' :: (pad2 d ++ []))
  simp

theorem parseDate_dateIso {y m d : ℕ} (hy : y < 10000) (hm : m < 100) (hd : d < 100) :
    parseDate (dateIso y m d).data = some (.date y m d) := by
  rw [parseDate, dateIso_data, parseDatePart_pads hy hm hd]

theorem timeIso_data_zero (h mi s : ℕ) :
    (timeIso h mi s 0).data = pad2 h ++ ':' :: (pad2 mi ++ ':' :: (pad2 s ++ [])) := by
  show (((pad2 h ++ [':']) ++ pad2 mi ++ [':']) ++ pad2 s ++ ("" : String).data) =
    pad2 h ++ ':' :: (pad2 mi ++ ':' :: (pad2 s ++ []))
  simp

theorem timeIso_data_pos (h mi s us : ℕ) (hus : us ≠ 0) :
    (timeIso h mi s us).data = pad2 h ++ ':' :: (pad2 mi ++ ':' :: (pad2 s ++ '.' :: pad6 us)) := by
  rw [timeIso, if_neg hus]
  show (((pad2 h ++ [':']) ++ pad2 mi ++ [':']) ++ pad2 s ++ ('.' :: pad6 us)) =
    pad2 h ++ ':' :: (pad2 mi ++ ':' :: (pad2 s ++ '.' :: pad6 us))
  simp

theorem parseTimeTail_pads {h mi s us : ℕ} (hh : h < 100) (hmi : mi < 100) (hs : s < 100)
    (hus : us < 1000000) :
    parseTimeTail (timeIso h mi s us).data = some (h, mi, s, us) := by
  by_cases h0 : us = 0
  · subst h0
    rw [timeIso_data_zero]
    simp only [parseTimeTail, digit2_pad2 hh, digit2_pad2 hmi, digit2_pad2 hs,
      expectChar_cons_self]
  · rw [timeIso_data_pos h mi s us h0]
    simp only [parseTimeTail, digit2_pad2 hh, digit2_pad2 hmi, digit2_pad2 hs,
      expectChar_cons_self, pad6]
    have d1 : us / 100000 < 10 := by omega
    have d2 : us / 10000 % 10 < 10 := Nat.mod_lt _ (by omega)
    have d3 : us / 1000 % 10 < 10 := Nat.mod_lt _ (by omega)
    have d4 : us / 100 % 10 < 10 := Nat.mod_lt _ (by omega)
    have d5 : us / 10 % 10 < 10 := Nat.mod_lt _ (by omega)
    have d6 : us % 10 < 10 := Nat.mod_lt _ (by omega)
    simp only [digitChar_isDigit d1, digitChar_isDigit d2, digitChar_isDigit d3,
      digitChar_isDigit d4, digitChar_isDigit d5, digitChar_isDigit d6, Bool.and_self, if_true]
    simp only [digitsVal, List.foldl, chVal_digitChar d1, chVal_digitChar d2,
      chVal_digitChar d3, chVal_digitChar d4, chVal_digitChar d5, chVal_digitChar d6]
    have : ((((us / 100000 * 10 + us / 10000 % 10) * 10 + us / 1000 % 10) * 10 +
        us / 100 % 10) * 10 + us / 10 % 10) * 10 + us % 10 = us := by omega
    rw [Nat.zero_mul, Nat.zero_add, this]

theorem intStr_natCast (k : ℕ) : intStr (k : ℤ) = natStr k := by
  rw [intStr, if_neg (not_lt.mpr (Int.natCast_nonneg k)), Int.natAbs_ofNat]
  rfl

theorem floorDiv60_micro (am : ℕ) :
    ⌊(am : ℚ) / 1000000 / 60⌋ = ((am / 60000000 : ℕ) : ℤ) := by
  have h1 : (am : ℚ) / 1000000 / 60 = ((am : ℤ) : ℚ) / ((60000000 : ℕ) : ℚ) := by
    push_cast
    ring
  rw [h1, Rat.floor_intCast_div_natCast]
  norm_cast

theorem fmod_micro (am : ℕ) :
    fmod ((am : ℚ) / 1000000) 60 = ((am % 60000000 : ℕ) : ℚ) / 1000000 := by
  rw [fmod, floorDiv60_micro]
  have hdc : (((am / 60000000 : ℕ) : ℤ) : ℚ) = ((am / 60000000 : ℕ) : ℚ) := by
    norm_cast
  have hsplit : (am : ℚ) =
      60000000 * ((am / 60000000 : ℕ) : ℚ) + ((am % 60000000 : ℕ) : ℚ) := by
    exact_mod_cast (Nat.div_add_mod am 60000000).symm
  rw [hdc, hsplit]
  ring

theorem fmt6_micro (am : ℕ) :
    fmt6 (((am % 60000000 : ℕ) : ℚ) / 1000000) =
      natStr (am / 1000000 % 60) ++ "." ++ String.mk (pad6 (am % 1000000)) := by
  rw [fmt6]
  have h1 : ((am % 60000000 : ℕ) : ℚ) / 1000000 * 1000000 = ((am % 60000000 : ℕ) : ℚ) := by
    field_simp
  rw [h1, Int.floor_natCast, Int.toNat_natCast]
  have h2 : am % 60000000 / 1000000 = am / 1000000 % 60 := by
    have h3 := Nat.mod_mul_right_div_self am 1000000 60
    norm_num at h3
    exact h3
  have h4 : am % 60000000 % 1000000 = am % 1000000 :=
    Nat.mod_mod_of_dvd _ (by norm_num)
  rw [h2, h4]

/-- The timedelta token of src/app.py line 310, with the float arithmetic of
lines 300-309 carried out exactly: the chained `% 60`, `int(/60)`, `% 60`,
`int(/60)`, `% 24`, `int(/24)` decomposition of `|total_seconds()|`
expressed over the total microsecond count. -/
theorem dayTimeToken_int (micros : ℤ) :
    dayTimeToken micros =
      "@\"" ++ (if micros < 0 then "-" else "") ++ "P" ++
        natStr (micros.natAbs / 86400000000) ++ "DT" ++
        natStr (micros.natAbs / 3600000000 % 24) ++ "H" ++
        natStr (micros.natAbs / 60000000 % 60) ++ "M" ++
        (natStr (micros.natAbs / 1000000 % 60) ++ "." ++
          String.mk (pad6 (micros.natAbs % 1000000))) ++ "S\"" := by
  have hcpos : (0 : ℚ) < 1000000 := by norm_num
  have hcond : ((micros : ℚ) / 1000000 < 0) = (micros < 0) := by
    apply propext
    constructor
    · intro h
      by_contra hn
      push_neg at hn
      have h0 : (0 : ℚ) ≤ (micros : ℚ) := by exact_mod_cast hn
      exact absurd (div_nonneg h0 (le_of_lt hcpos)) (not_le.mpr h)
    · intro h
      exact div_neg_of_neg_of_pos (by exact_mod_cast h) hcpos
  have habs : (if micros < 0 then -((micros : ℚ) / 1000000) else (micros : ℚ) / 1000000) =
      ((micros.natAbs : ℕ) : ℚ) / 1000000 := by
    by_cases hm : micros < 0
    · have h5 : ((micros.natAbs : ℕ) : ℚ) = -((micros : ℤ) : ℚ) := by
        have h6 : ((micros.natAbs : ℕ) : ℤ) = -micros :=
          Int.ofNat_natAbs_of_nonpos (le_of_lt hm)
        have h7 : ((micros.natAbs : ℕ) : ℚ) = (((micros.natAbs : ℕ) : ℤ) : ℚ) :=
          (Int.cast_natCast micros.natAbs).symm
        rw [h7, h6]
        push_cast
        ring
      rw [if_pos hm, h5, neg_div]
    · have h5 : ((micros.natAbs : ℕ) : ℚ) = ((micros : ℤ) : ℚ) := by
        have h6 : ((micros.natAbs : ℕ) : ℤ) = micros := Int.natAbs_of_nonneg (not_lt.mp hm)
        have h7 : ((micros.natAbs : ℕ) : ℚ) = (((micros.natAbs : ℕ) : ℤ) : ℚ) :=
          (Int.cast_natCast micros.natAbs).symm
        rw [h7, h6]
      rw [if_neg hm, h5]
  have hmod60 : ((micros.natAbs / 60000000 : ℕ) : ℤ) % 60 =
      ((micros.natAbs / 60000000 % 60 : ℕ) : ℤ) := by
    norm_cast
  have hdivdiv : ((micros.natAbs / 60000000 : ℕ) : ℤ) / 60 =
      ((micros.natAbs / 3600000000 : ℕ) : ℤ) := by
    exact_mod_cast
      (show micros.natAbs / 60000000 / 60 = micros.natAbs / 3600000000 by omega)
  have hmod24 : ((micros.natAbs / 3600000000 : ℕ) : ℤ) % 24 =
      ((micros.natAbs / 3600000000 % 24 : ℕ) : ℤ) := by
    norm_cast
  have hdiv24 : ((micros.natAbs / 3600000000 : ℕ) : ℤ) / 24 =
      ((micros.natAbs / 86400000000 : ℕ) : ℤ) := by
    exact_mod_cast
      (show micros.natAbs / 3600000000 / 24 = micros.natAbs / 86400000000 by omega)
  simp only [dayTimeToken, hcond, habs, floorDiv60_micro, fmod_micro, fmt6_micro,
    hmod60, hdivdiv, hmod24, hdiv24, intStr_natCast]

theorem data_mk (l : List Char) : (String.mk l).data = l := rfl

theorem natStr_data (n : ℕ) : (natStr n).data = natChars n := rfl

theorem dataAtQuote : ("@\"" : String).data = ['@', '"'] := rfl

theorem dataQuote : ("\"" : String).data = ['"'] := rfl

theorem dataDash : ("-" : String).data = ['-'] := rfl

theorem dataP : ("P" : String).data = ['P'] := rfl

theorem dataDT : ("DT" : String).data = ['D', 'T'] := rfl

theorem dataH : ("H" : String).data = ['H'] := rfl

theorem dataM : ("M" : String).data = ['M'] := rfl

theorem dataDot : ("." : String).data = ['.'] := rfl

theorem dataSQuote : ("S\"" : String).data = ['S', '"'] := rfl

theorem dataMQuote : ("M\"" : String).data = ['M', '"'] := rfl

theorem dataT : ("T" : String).data = ['T'] := rfl

theorem dataY : ("Y" : String).data = ['Y'] := rfl

theorem dayTimeToken_data (micros : ℤ) :
    (dayTimeToken micros).data = '@' :: '"' :: (dayTimeBody micros ++ ['"']) := by
  rw [dayTimeToken_int, dayTimeBody]
  by_cases hm : micros < 0 <;>
    simp [hm, String.data_append, dataAtQuote, dataDash, dataP, dataDT, dataH, dataM,
      dataDot, dataSQuote, natStr_data, data_mk, List.append_assoc]

theorem yearMonthToken_data (n : ℤ) :
    (yearMonthToken n).data = '@' :: '"' :: (yearMonthBody n ++ ['"']) := by
  rw [yearMonthToken, yearMonthBody]
  by_cases hm : n < 0 <;>
    simp [hm, String.data_append, dataAtQuote, dataDash, dataP, dataY, dataMQuote,
      natStr_data, data_mk, List.append_assoc]

theorem expectChar_cons_ne {a c : Char} (h : a ≠ c) (rest : List Char) :
    expectChar c (a :: rest) = Option.none := by
  simp [expectChar, h]

theorem digit2_head {c : Char} (hc : c.isDigit = false) (cs : List Char) :
    digit2 (c :: cs) = Option.none := by
  cases cs with
  | nil => rfl
  | cons b tl => simp [digit2, hc]

theorem digit4_head {c : Char} (hc : c.isDigit = false) (cs : List Char) :
    digit4 (c :: cs) = Option.none := by
  rcases cs with _ | ⟨b, _ | ⟨d, _ | ⟨e, tl⟩⟩⟩
  · rfl
  · rfl
  · rfl
  · simp [digit4, hc]

theorem digit4_colon_third (a b : Char) (cs : List Char) :
    digit4 (a :: b :: ':' :: cs) = Option.none := by
  cases cs with
  | nil => rfl
  | cons r tl => simp [digit4, show (':').isDigit = false by decide]

theorem parseDatePart_head {c : Char} (hc : c.isDigit = false) (cs : List Char) :
    parseDatePart (c :: cs) = Option.none := by
  simp [parseDatePart, digit4_head hc]

theorem parseDate_head {c : Char} (hc : c.isDigit = false) (cs : List Char) :
    parseDate (c :: cs) = Option.none := by
  simp [parseDate, parseDatePart_head hc]

theorem parseDateTime_head {c : Char} (hc : c.isDigit = false) (cs : List Char) :
    parseDateTime (c :: cs) = Option.none := by
  simp [parseDateTime, parseDatePart_head hc]

theorem parseTimeTail_head {c : Char} (hc : c.isDigit = false) (cs : List Char) :
    parseTimeTail (c :: cs) = Option.none := by
  simp [parseTimeTail, digit2_head hc]

theorem parseTime_head {c : Char} (hc : c.isDigit = false) (cs : List Char) :
    parseTime (c :: cs) = Option.none := by
  simp [parseTime, parseTimeTail_head hc]

theorem parseDate_of_rest {y m d : ℕ} {cs rest : List Char} {c : Char}
    (h : parseDatePart cs = some (y, m, d, c :: rest)) : parseDate cs = Option.none := by
  simp [parseDate, h]

theorem parseDayTime_shape (cs : List Char) (sgn : Bool) (D H M S U : ℕ) (hU : U < 1000000)
    (hps : parseSign cs =
      (sgn, 'P' :: (natChars D ++ 'D' :: 'T' :: (natChars H ++
        'H' :: (natChars M ++ 'M' :: (natChars S ++ '.' :: (pad6 U ++ ['S']))))))) :
    parseDayTime cs = some (.timedelta
      (if sgn then -(((((D * 24 + H) * 60 + M) * 60 + S) * 1000000 + U : ℕ) : ℤ)
       else (((((D * 24 + H) * 60 + M) * 60 + S) * 1000000 + U : ℕ) : ℤ))) := by
  have hD : ('D').isDigit = false := by decide
  have hH : ('H').isDigit = false := by decide
  have hM : ('M').isDigit = false := by decide
  have hDot : ('.').isDigit = false := by decide
  rw [parseDayTime, hps]
  simp only [expectChar_cons_self, parseNatPart_natChars D hD, expectChar_cons_self,
    parseNatPart_natChars H hH, parseNatPart_natChars M hM, parseNatPart_natChars S hDot,
    pad6, List.cons_append, List.nil_append]
  have d1 : U / 100000 < 10 := by omega
  have d2 : U / 10000 % 10 < 10 := Nat.mod_lt _ (by omega)
  have d3 : U / 1000 % 10 < 10 := Nat.mod_lt _ (by omega)
  have d4 : U / 100 % 10 < 10 := Nat.mod_lt _ (by omega)
  have d5 : U / 10 % 10 < 10 := Nat.mod_lt _ (by omega)
  have d6 : U % 10 < 10 := Nat.mod_lt _ (by omega)
  simp only [digitChar_isDigit d1, digitChar_isDigit d2, digitChar_isDigit d3,
    digitChar_isDigit d4, digitChar_isDigit d5, digitChar_isDigit d6, Bool.and_self, if_true]
  simp only [digitsVal, List.foldl, chVal_digitChar d1, chVal_digitChar d2,
    chVal_digitChar d3, chVal_digitChar d4, chVal_digitChar d5, chVal_digitChar d6]
  have hUval : ((((U / 100000 * 10 + U / 10000 % 10) * 10 + U / 1000 % 10) * 10 +
      U / 100 % 10) * 10 + U / 10 % 10) * 10 + U % 10 = U := by omega
  rw [Nat.zero_mul, Nat.zero_add, hUval]

theorem parseDayTime_body (micros : ℤ) :
    parseDayTime (dayTimeBody micros) = some (.timedelta micros) := by
  have hU : micros.natAbs % 1000000 < 1000000 := Nat.mod_lt _ (by omega)
  have hpack : ((((micros.natAbs / 86400000000 * 24 + micros.natAbs / 3600000000 % 24) * 60 +
      micros.natAbs / 60000000 % 60) * 60 + micros.natAbs / 1000000 % 60) * 1000000 +
        micros.natAbs % 1000000) = micros.natAbs := by omega
  by_cases hm : micros < 0
  · have hps : parseSign (dayTimeBody micros) =
        (true, 'P' :: (natChars (micros.natAbs / 86400000000) ++
          'D' :: 'T' :: (natChars (micros.natAbs / 3600000000 % 24) ++
            'H' :: (natChars (micros.natAbs / 60000000 % 60) ++
              'M' :: (natChars (micros.natAbs / 1000000 % 60) ++
                '.' :: (pad6 (micros.natAbs % 1000000) ++ ['S'])))))) := by
      rw [dayTimeBody, if_pos hm]
      rfl
    rw [parseDayTime_shape _ _ _ _ _ _ _ hU hps]
    simp only [if_true, hpack, Option.some.injEq, PyVal.timedelta.injEq]
    omega
  · have hps : parseSign (dayTimeBody micros) =
        (false, 'P' :: (natChars (micros.natAbs / 86400000000) ++
          'D' :: 'T' :: (natChars (micros.natAbs / 3600000000 % 24) ++
            'H' :: (natChars (micros.natAbs / 60000000 % 60) ++
              'M' :: (natChars (micros.natAbs / 1000000 % 60) ++
                '.' :: (pad6 (micros.natAbs % 1000000) ++ ['S'])))))) := by
      rw [dayTimeBody, if_neg hm]
      rfl
    rw [parseDayTime_shape _ _ _ _ _ _ _ hU hps]
    simp only [Bool.false_eq_true, if_false, hpack, Option.some.injEq, PyVal.timedelta.injEq]
    omega

theorem parseYearMonth_shape (cs : List Char) (sgn : Bool) (Y M : ℕ)
    (hps : parseSign cs = (sgn, 'P' :: (natChars Y ++ 'Y' :: (natChars M ++ ['M'])))) :
    parseYearMonth cs = some (.int
      (if sgn then -((Y * 12 + M : ℕ) : ℤ) else ((Y * 12 + M : ℕ) : ℤ))) := by
  have hY : ('Y').isDigit = false := by decide
  have hM : ('M').isDigit = false := by decide
  rw [parseYearMonth, hps]
  simp only [expectChar_cons_self, parseNatPart_natChars Y hY, parseNatPart_natChars M hM,
    expectChar_cons_self]

theorem parseYearMonth_body (n : ℤ) : parseYearMonth (yearMonthBody n) = some (.int n) := by
  have hpack : n.natAbs / 12 * 12 + n.natAbs % 12 = n.natAbs := by omega
  by_cases hm : n < 0
  · have hps : parseSign (yearMonthBody n) =
        (true, 'P' :: (natChars (n.natAbs / 12) ++ 'Y' :: (natChars (n.natAbs % 12) ++ ['M']))) := by
      rw [yearMonthBody, if_pos hm]
      rfl
    rw [parseYearMonth_shape _ _ _ _ hps]
    simp only [if_true, hpack, Option.some.injEq, PyVal.int.injEq]
    omega
  · have hps : parseSign (yearMonthBody n) =
        (false, 'P' :: (natChars (n.natAbs / 12) ++ 'Y' :: (natChars (n.natAbs % 12) ++ ['M']))) := by
      rw [yearMonthBody, if_neg hm]
      rfl
    rw [parseYearMonth_shape _ _ _ _ hps]
    simp only [Bool.false_eq_true, if_false, hpack, Option.some.injEq, PyVal.int.injEq]
    omega

theorem parseDayTime_yearMonthBody (n : ℤ) : parseDayTime (yearMonthBody n) = Option.none := by
  have hY : ('Y').isDigit = false := by decide
  have hYD : ('Y' : Char) ≠ 'D' := by decide
  by_cases hm : n < 0
  · have hps : parseSign (yearMonthBody n) =
        (true, 'P' :: (natChars (n.natAbs / 12) ++ 'Y' :: (natChars (n.natAbs % 12) ++ ['M']))) := by
      rw [yearMonthBody, if_pos hm]
      rfl
    rw [parseDayTime, hps]
    simp only [expectChar_cons_self, parseNatPart_natChars _ hY, expectChar_cons_ne hYD]
  · have hps : parseSign (yearMonthBody n) =
        (false, 'P' :: (natChars (n.natAbs / 12) ++ 'Y' :: (natChars (n.natAbs % 12) ++ ['M']))) := by
      rw [yearMonthBody, if_neg hm]
      rfl
    rw [parseDayTime, hps]
    simp only [expectChar_cons_self, parseNatPart_natChars _ hY, expectChar_cons_ne hYD]

theorem signP_head_fail {l : List Char} (X : List Char) (hl : l = ['-'] ∨ l = []) :
    parseDate (l ++ 'P' :: X) = Option.none ∧ parseDateTime (l ++ 'P' :: X) = Option.none ∧
      parseTime (l ++ 'P' :: X) = Option.none := by
  rcases hl with h | h <;> subst h
  · exact ⟨parseDate_head (by decide) _, parseDateTime_head (by decide) _,
      parseTime_head (by decide) _⟩
  · exact ⟨parseDate_head (by decide) _, parseDateTime_head (by decide) _,
      parseTime_head (by decide) _⟩

theorem sign_if_cases (p : Prop) [Decidable p] :
    (if p then (['-'] : List Char) else []) = ['-'] ∨
      (if p then (['-'] : List Char) else []) = [] := by
  by_cases h : p
  · exact Or.inl (if_pos h)
  · exact Or.inr (if_neg h)

theorem convertAtString_dateToken {y m d : ℕ} (hy : y < 10000) (hm : m < 100) (hd : d < 100) :
    convertAtString ("@\"" ++ dateIso y m d ++ "\"") = .date y m d := by
  apply convertAtString_of_parse _ (dateIso y m d).data _ rfl
  simp only [sFeelParse, data_mk, parseDate_dateIso hy hm hd]

theorem convertAtString_timeToken {h mi s us : ℕ} (hh : h < 100) (hmi : mi < 100)
    (hs : s < 100) (hus : us < 1000000) :
    convertAtString ("@\"" ++ timeIso h mi s us ++ "\"") = .time h mi s us := by
  apply convertAtString_of_parse _ (timeIso h mi s us).data _ rfl
  have hdp : parseDatePart (timeIso h mi s us).data = Option.none := by
    by_cases h0 : us = 0
    · subst h0
      rw [timeIso_data_zero, pad2]
      simp only [List.cons_append, List.nil_append]
      simp [parseDatePart, digit4_colon_third]
    · rw [timeIso_data_pos _ _ _ _ h0, pad2]
      simp only [List.cons_append, List.nil_append]
      simp [parseDatePart, digit4_colon_third]
  have h1 : parseDate (timeIso h mi s us).data = Option.none := by
    simp [parseDate, hdp]
  have h2 : parseDateTime (timeIso h mi s us).data = Option.none := by
    simp [parseDateTime, hdp]
  have h3 : parseTime (timeIso h mi s us).data = some (.time h mi s us) := by
    simp [parseTime, parseTimeTail_pads hh hmi hs hus]
  simp only [sFeelParse, data_mk, h1, h2, h3]

theorem dateTimeIso_data (y mo d h mi s us : ℕ) :
    (dateIso y mo d ++ "T" ++ timeIso h mi s us).data =
      pad4 y ++ '-' :: (pad2 mo ++ '-' :: (pad2 d ++ 'T' :: (timeIso h mi s us).data)) := by
  show ((dateIso y mo d).data ++ ['T']) ++ (timeIso h mi s us).data = _
  rw [dateIso_data]
  simp [List.append_assoc]

theorem convertAtString_dateTimeToken {y mo d h mi s us : ℕ} (hy : y < 10000) (hmo : mo < 100)
    (hd : d < 100) (hh : h < 100) (hmi : mi < 100) (hs : s < 100) (hus : us < 1000000) :
    convertAtString ("@\"" ++ dateIso y mo d ++ "T" ++ timeIso h mi s us ++ "\"") =
      .datetime y mo d h mi s us := by
  apply convertAtString_of_parse _ (dateIso y mo d ++ "T" ++ timeIso h mi s us).data _ rfl
  have hdp : parseDatePart (dateIso y mo d ++ "T" ++ timeIso h mi s us).data =
      some (y, mo, d, 'T' :: (timeIso h mi s us).data) := by
    rw [dateTimeIso_data, parseDatePart_pads hy hmo hd]
  have h1 : parseDate (dateIso y mo d ++ "T" ++ timeIso h mi s us).data = Option.none :=
    parseDate_of_rest hdp
  have h2 : parseDateTime (dateIso y mo d ++ "T" ++ timeIso h mi s us).data =
      some (.datetime y mo d h mi s us) := by
    simp only [parseDateTime, hdp, parseTimeTail_pads hh hmi hs hus]
  simp only [sFeelParse, data_mk, h1, h2]

theorem convertAtString_dayTimeToken (micros : ℤ) :
    convertAtString (dayTimeToken micros) = .timedelta micros := by
  apply convertAtString_of_parse _ (dayTimeBody micros) _ (dayTimeToken_data micros)
  have hbody : dayTimeBody micros = (if micros < 0 then ['-'] else []) ++
      'P' :: (natChars (micros.natAbs / 86400000000) ++
        'D' :: 'T' :: (natChars (micros.natAbs / 3600000000 % 24) ++
          'H' :: (natChars (micros.natAbs / 60000000 % 60) ++
            'M' :: (natChars (micros.natAbs / 1000000 % 60) ++
              '.' :: (pad6 (micros.natAbs % 1000000) ++ ['S']))))) := rfl
  obtain ⟨h1, h2, h3⟩ := signP_head_fail (l := if micros < 0 then ['-'] else [])
    (natChars (micros.natAbs / 86400000000) ++
      'D' :: 'T' :: (natChars (micros.natAbs / 3600000000 % 24) ++
        'H' :: (natChars (micros.natAbs / 60000000 % 60) ++
          'M' :: (natChars (micros.natAbs / 1000000 % 60) ++
            '.' :: (pad6 (micros.natAbs % 1000000) ++ ['S'])))))
    (sign_if_cases _)
  rw [← hbody] at h1 h2 h3
  simp only [sFeelParse, data_mk, h1, h2, h3, parseDayTime_body micros]

theorem convertAtString_yearMonthToken (n : ℤ) :
    convertAtString (yearMonthToken n) = .int n := by
  apply convertAtString_of_parse _ (yearMonthBody n) _ (yearMonthToken_data n)
  have hbody : yearMonthBody n = (if n < 0 then ['-'] else []) ++
      'P' :: (natChars (n.natAbs / 12) ++ 'Y' :: (natChars (n.natAbs % 12) ++ ['M'])) := rfl
  obtain ⟨h1, h2, h3⟩ := signP_head_fail (l := if n < 0 then ['-'] else [])
    (natChars (n.natAbs / 12) ++ 'Y' :: (natChars (n.natAbs % 12) ++ ['M']))
    (sign_if_cases _)
  rw [← hbody] at h1 h2 h3
  simp only [sFeelParse, data_mk, h1, h2, h3, parseDayTime_yearMonthBody n,
    parseYearMonth_body n]

theorem lookup_convertInDict : ∀ (kvs : PyDict) (k : String),
    (convertInDict kvs).lookup k = (kvs.lookup k).map convertInElem
  | .nil, _ => rfl
  | .cons k2 v tl, k => by
    rw [convertInDict, PyDict.lookup, PyDict.lookup]
    by_cases h : k2 == k
    · simp [h]
    · simp [h, lookup_convertInDict tl k]

theorem get_convertInList : ∀ (xs : PyList) (i : ℕ),
    (convertInList xs).get? i = (xs.get? i).map convertInElem
  | .nil, _ => rfl
  | .cons v tl, 0 => rfl
  | .cons v tl, i + 1 => by
    rw [convertInList, PyList.get?, PyList.get?]
    exact get_convertInList tl i

theorem lookup_convertOutDict : ∀ (kvs : PyDict) (k : String),
    (convertOutDict kvs).lookup k = (kvs.lookup k).map convertOut
  | .nil, _ => rfl
  | .cons k2 v tl, k => by
    rw [convertOutDict, PyDict.lookup, PyDict.lookup]
    by_cases h : k2 == k
    · simp [h]
    · simp [h, lookup_convertOutDict tl k]

theorem get_convertOutList : ∀ (xs : PyList) (i : ℕ),
    (convertOutList xs).get? i = (xs.get? i).map convertOut
  | .nil, _ => rfl
  | .cons v tl, 0 => rfl
  | .cons v tl, i + 1 => by
    rw [convertOutList, PyList.get?, PyList.get?]
    exact get_convertOutList tl i

/-- Every element one or more containers deep in the input of `convertIn`
appears in the output transformed by `convertInElem` (at the same path). -/
theorem getPath_convertIn : ∀ (p : List PathElem) (v w : PyVal), p ≠ [] →
    getPath v p = some w → getPath (convertIn v) p = some (convertInElem w) := by
  intro p
  induction p with
  | nil => intro v w h; exact absurd rfl h
  | cons e p ih =>
    intro v w _ hg
    have step : ∀ v2 : PyVal, getPath v2 p = some w →
        getPath (convertInElem v2) p = some (convertInElem w) := by
      intro v2 hg2
      cases hp : p with
      | nil =>
        rw [hp] at hg2
        rw [getPath] at hg2
        cases hg2
        rfl
      | cons e2 p2 =>
        subst hp
        have hne : e2 :: p2 ≠ [] := by simp
        have hstep := ih v2 w hne hg2
        cases v2 with
        | dict kvs => exact hstep
        | list xs => exact hstep
        | none => cases e2 <;> simp [getPath] at hg2
        | bool b => cases e2 <;> simp [getPath] at hg2
        | int n => cases e2 <;> simp [getPath] at hg2
        | float q => cases e2 <;> simp [getPath] at hg2
        | str s => cases e2 <;> simp [getPath] at hg2
        | date y m d => cases e2 <;> simp [getPath] at hg2
        | datetime y mo d h mi s us => cases e2 <;> simp [getPath] at hg2
        | time h mi s us => cases e2 <;> simp [getPath] at hg2
        | timedelta m => cases e2 <;> simp [getPath] at hg2
        | tuple4 a b c d => cases e2 <;> simp [getPath] at hg2
    cases e with
    | key k =>
      cases v with
      | dict kvs =>
        rw [getPath] at hg
        cases hl : kvs.lookup k with
        | none => rw [hl] at hg; simp at hg
        | some v2 =>
          rw [hl] at hg
          simp only at hg
          rw [convertIn, getPath, lookup_convertInDict, hl]
          exact step v2 hg
      | none => simp [getPath] at hg
      | bool b => simp [getPath] at hg
      | int n => simp [getPath] at hg
      | float q => simp [getPath] at hg
      | str s => simp [getPath] at hg
      | date y m d => simp [getPath] at hg
      | datetime y mo d h mi s us => simp [getPath] at hg
      | time h mi s us => simp [getPath] at hg
      | timedelta m => simp [getPath] at hg
      | tuple4 a b c d => simp [getPath] at hg
      | list xs => simp [getPath] at hg
    | idx i =>
      cases v with
      | list xs =>
        rw [getPath] at hg
        cases hl : xs.get? i with
        | none => rw [hl] at hg; simp at hg
        | some v2 =>
          rw [hl] at hg
          simp only at hg
          rw [convertIn, getPath, get_convertInList, hl]
          exact step v2 hg
      | none => simp [getPath] at hg
      | bool b => simp [getPath] at hg
      | int n => simp [getPath] at hg
      | float q => simp [getPath] at hg
      | str s => simp [getPath] at hg
      | date y m d => simp [getPath] at hg
      | datetime y mo d h mi s us => simp [getPath] at hg
      | time h mi s us => simp [getPath] at hg
      | timedelta m => simp [getPath] at hg
      | tuple4 a b c d => simp [getPath] at hg
      | dict kvs => simp [getPath] at hg

/-- Every value reachable in the input of `convertOut` (at any depth of
dict/list nesting, including the top) appears in the output encoded by
`convertOut` at the same path. -/
theorem getPath_convertOut : ∀ (p : List PathElem) (v w : PyVal),
    getPath v p = some w → getPath (convertOut v) p = some (convertOut w) := by
  intro p
  induction p with
  | nil =>
    intro v w hg
    rw [getPath] at hg
    cases hg
    rfl
  | cons e p ih =>
    intro v w hg
    cases e with
    | key k =>
      cases v with
      | dict kvs =>
        rw [getPath] at hg
        cases hl : kvs.lookup k with
        | none => rw [hl] at hg; simp at hg
        | some v2 =>
          rw [hl] at hg
          simp only at hg
          rw [convertOut, getPath, lookup_convertOutDict, hl]
          exact ih v2 w hg
      | none => simp [getPath] at hg
      | bool b => simp [getPath] at hg
      | int n => simp [getPath] at hg
      | float q => simp [getPath] at hg
      | str s => simp [getPath] at hg
      | date y m d => simp [getPath] at hg
      | datetime y mo d h mi s us => simp [getPath] at hg
      | time h mi s us => simp [getPath] at hg
      | timedelta m => simp [getPath] at hg
      | tuple4 a b c d => simp [getPath] at hg
      | list xs => simp [getPath] at hg
    | idx i =>
      cases v with
      | list xs =>
        rw [getPath] at hg
        cases hl : xs.get? i with
        | none => rw [hl] at hg; simp at hg
        | some v2 =>
          rw [hl] at hg
          simp only at hg
          rw [convertOut, getPath, get_convertOutList, hl]
          exact ih v2 w hg
      | none => simp [getPath] at hg
      | bool b => simp [getPath] at hg
      | int n => simp [getPath] at hg
      | float q => simp [getPath] at hg
      | str s => simp [getPath] at hg
      | date y m d => simp [getPath] at hg
      | datetime y mo d h mi s us => simp [getPath] at hg
      | time h mi s us => simp [getPath] at hg
      | timedelta m => simp [getPath] at hg
      | tuple4 a b c d => simp [getPath] at hg
      | dict kvs => simp [getPath] at hg

theorem hElemOut_val (fuel : ℕ) (h : Heap) (v : PyVal) :
    hElemOut fuel h (.val v) = (h, .val (convertOut v)) := by
  cases fuel <;> rfl

theorem hMapPairs_scalar (fuel : ℕ) (h : Heap) (kvs : List (String × PyVal)) :
    hMapPairs (hElemOut fuel) h (kvs.map (fun kv => (kv.1, HElem.val kv.2))) =
      (h, kvs.map (fun kv => (kv.1, HElem.val (convertOut kv.2)))) := by
  induction kvs with
  | nil => rfl
  | cons kv tl ih =>
    simp only [List.map_cons, hMapPairs, hElemOut_val, ih]

theorem hMapList_scalar (fuel : ℕ) (h : Heap) (xs : List PyVal) :
    hMapList (hElemOut fuel) h (xs.map HElem.val) = (h, xs.map (fun v => HElem.val (convertOut v))) := by
  induction xs with
  | nil => rfl
  | cons v tl ih =>
    simp only [List.map_cons, hMapList, hElemOut_val, ih]

theorem flattenSeqER_ok : ∀ rs : List DRecord, (∀ r ∈ rs, r.executedRule ≠ Option.none) →
    flattenSeqER rs = .ok (specTriples rs) := by
  intro rs
  induction rs with
  | nil => intro _; rfl
  | cons r tl ih =>
    intro hall
    have hr : r.executedRule ≠ Option.none := hall r (List.mem_cons_self r tl)
    have htl := ih (fun x hx => hall x (List.mem_cons_of_mem r hx))
    rw [flattenSeqER, specTriples]
    cases he : r.executedRule with
    | none => exact absurd he hr
    | some rv =>
      cases rv with
      | multi ts => rw [htl]; rfl
      | single t => rw [htl]; rfl

theorem floorDivK_micro (am k : ℕ) :
    ⌊(am : ℚ) / 1000000 / (k : ℚ)⌋ = ((am / (1000000 * k) : ℕ) : ℤ) := by
  have h1 : (am : ℚ) / 1000000 / (k : ℚ) = ((am : ℤ) : ℚ) / ((1000000 * k : ℕ) : ℚ) := by
    push_cast
    by_cases hk : (k : ℚ) = 0
    · rw [hk]
      simp
    · field_simp
  rw [h1, Rat.floor_intCast_div_natCast]
  norm_cast

theorem abs_micro (micros : ℤ) : |(micros : ℚ) / 1000000| = ((micros.natAbs : ℕ) : ℚ) / 1000000 := by
  rw [abs_div, abs_of_pos (show (0 : ℚ) < 1000000 by norm_num)]
  by_cases hm : micros < 0
  · rw [abs_of_neg (show ((micros : ℚ)) < 0 by exact_mod_cast hm)]
    have h6 : ((micros.natAbs : ℕ) : ℤ) = -micros := Int.ofNat_natAbs_of_nonpos (le_of_lt hm)
    have h7 : ((micros.natAbs : ℕ) : ℚ) = (((micros.natAbs : ℕ) : ℤ) : ℚ) :=
      (Int.cast_natCast micros.natAbs).symm
    rw [h7, h6]
    push_cast
    ring
  · rw [abs_of_nonneg (show (0 : ℚ) ≤ (micros : ℚ) by exact_mod_cast not_lt.mp hm)]
    have h6 : ((micros.natAbs : ℕ) : ℤ) = micros := Int.natAbs_of_nonneg (not_lt.mp hm)
    have h7 : ((micros.natAbs : ℕ) : ℚ) = (((micros.natAbs : ℕ) : ℤ) : ℚ) :=
      (Int.cast_natCast micros.natAbs).symm
    rw [h7, h6]

/-- C1 counterexample: the Interval kind does not round-trip.  Encoding the
interval `('[', 'a', 'b', ']')` yields the token `@"[a .. b]` without a
closing quote (src/app.py line 326), so `convertAtString` strips the `]`
instead of a quote, the parser rejects the mangled body `[a .. b`, and the
decode returns the raw token string rather than the interval value. -/
theorem c1_interval_counterexample :
    convertAtString (outStr (.tuple4 "[" (.str "a") (.str "b") "]")) ≠
      .tuple4 "[" (.str "a") (.str "b") "]" := by
  decide

/-- C1 (amended): decoding the encoded token recovers the value for every
Date, Time, DateTime, DayTimeDuration and YearMonthDuration value (each
quantified over the component ranges Python's datetime types admit);
Interval is a third documented exception besides Bool and Null — its token
lacks the closing quote, so `convertAtString(convertOut(v))` returns the
raw token string instead of the value. -/
theorem c1_roundtrip_temporal :
    (∀ y m d : ℕ, 1 ≤ y → y ≤ 9999 → 1 ≤ m → m ≤ 12 → 1 ≤ d → d ≤ 31 →
      convertAtString (outStr (.date y m d)) = .date y m d) ∧
    (∀ h mi s us : ℕ, h ≤ 23 → mi ≤ 59 → s ≤ 59 → us ≤ 999999 →
      convertAtString (outStr (.time h mi s us)) = .time h mi s us) ∧
    (∀ y mo d h mi s us : ℕ, 1 ≤ y → y ≤ 9999 → 1 ≤ mo → mo ≤ 12 → 1 ≤ d → d ≤ 31 →
      h ≤ 23 → mi ≤ 59 → s ≤ 59 → us ≤ 999999 →
      convertAtString (outStr (.datetime y mo d h mi s us)) = .datetime y mo d h mi s us) ∧
    (∀ micros : ℤ, convertAtString (outStr (.timedelta micros)) = .timedelta micros) ∧
    (∀ months : ℤ, convertAtString (outStr (.int months)) = .int months) := by
  refine ⟨fun y m d h1 h2 h3 h4 h5 h6 => ?_, fun h mi s us h1 h2 h3 h4 => ?_,
    fun y mo d h mi s us h1 h2 h3 h4 h5 h6 h7 h8 h9 h10 => ?_,
    fun micros => ?_, fun months => ?_⟩
  · exact convertAtString_dateToken (by omega) (by omega) (by omega)
  · exact convertAtString_timeToken (by omega) (by omega) (by omega) (by omega)
  · exact convertAtString_dateTimeToken (by omega) (by omega) (by omega) (by omega)
      (by omega) (by omega) (by omega)
  · exact convertAtString_dayTimeToken micros
  · exact convertAtString_yearMonthToken months

/-- C1 witness: the round-trip theorem applied at concrete values of each
kind. -/
theorem c1_roundtrip_temporal_witness :
    convertAtString (outStr (.date 2024 1 15)) = .date 2024 1 15 ∧
    convertAtString (outStr (.time 10 30 0 0)) = .time 10 30 0 0 ∧
    convertAtString (outStr (.datetime 2024 1 15 10 30 0 0)) = .datetime 2024 1 15 10 30 0 0 ∧
    convertAtString (outStr (.timedelta 93784500000)) = .timedelta 93784500000 ∧
    convertAtString (outStr (.int 14)) = .int 14 :=
  ⟨c1_roundtrip_temporal.1 2024 1 15 (by omega) (by omega) (by omega) (by omega)
      (by omega) (by omega),
   c1_roundtrip_temporal.2.1 10 30 0 0 (by omega) (by omega) (by omega) (by omega),
   c1_roundtrip_temporal.2.2.1 2024 1 15 10 30 0 0 (by omega) (by omega) (by omega)
      (by omega) (by omega) (by omega) (by omega) (by omega) (by omega) (by omega),
   c1_roundtrip_temporal.2.2.2.1 93784500000,
   c1_roundtrip_temporal.2.2.2.2 14⟩

/-- C3: `convertIn` promotes every integer stored (at any depth) inside a
dict or list to a float, and leaves a top-level bare integer unchanged; in
particular `convertIn {"a": 5} = {"a": 5.0}` while `convertIn 5 = 5`. -/
theorem c3_nested_int_promotion :
    (∀ n : ℤ, convertIn (.int n) = .int n) ∧
    (∀ (v : PyVal) (p : List PathElem) (n : ℤ), p ≠ [] → getPath v p = some (.int n) →
      getPath (convertIn v) p = some (.float (n : ℚ))) ∧
    convertIn (.dict (.cons "a" (.int 5) .nil)) = .dict (.cons "a" (.float 5) .nil) := by
  refine ⟨fun n => rfl, fun v p n hp hg => getPath_convertIn p v (.int n) hp hg, by decide⟩

/-- C3 witness: the promotion theorem applied to `{"a": 5}` at path `"a"`. -/
theorem c3_nested_int_promotion_witness :
    getPath (convertIn (.dict (.cons "a" (.int 5) .nil))) [.key "a"] =
      some (.float ((5 : ℤ) : ℚ)) :=
  c3_nested_int_promotion.2.1 (.dict (.cons "a" (.int 5) .nil)) [.key "a"] 5
    (by decide) (by decide)

/-- C10: because Python's `isinstance(x, int)` is also true of booleans,
`convertIn` converts every boolean stored inside a dict or list to a float
(`True` to `1.0`, `False` to `0.0`), while a top-level bare boolean is
returned unchanged. -/
theorem c10_nested_bool_promotion :
    (∀ b : Bool, convertIn (.bool b) = .bool b) ∧
    (∀ (v : PyVal) (p : List PathElem) (b : Bool), p ≠ [] → getPath v p = some (.bool b) →
      getPath (convertIn v) p = some (.float (cond b 1 0))) := by
  refine ⟨fun b => rfl, fun v p b hp hg => getPath_convertIn p v (.bool b) hp hg⟩

/-- C10 witness: `{"a": True}` decodes to `{"a": 1.0}`, while a bare `True`
stays a boolean. -/
theorem c10_nested_bool_promotion_witness :
    convertIn (.bool true) = .bool true ∧
    getPath (convertIn (.dict (.cons "a" (.bool true) .nil))) [.key "a"] =
      some (.float (cond true 1 0)) :=
  ⟨c10_nested_bool_promotion.1 true,
   c10_nested_bool_promotion.2 (.dict (.cons "a" (.bool true) .nil)) [.key "a"] true
     (by decide) (by decide)⟩

/-- C8: `convertOut` encodes booleans as the bare strings `true`/`false`
and `None` as the bare string `null` (plain strings, not JSON booleans or
nulls, and without the `@"` wrapper), at the top level and at every
dict/list nesting depth. -/
theorem c8_bool_null_bare_tokens :
    (∀ b : Bool, convertOut (.bool b) = .str (cond b "true" "false")) ∧
    (convertOut .none = .str "null") ∧
    (∀ (v : PyVal) (p : List PathElem) (b : Bool), getPath v p = some (.bool b) →
      getPath (convertOut v) p = some (.str (cond b "true" "false"))) ∧
    (∀ (v : PyVal) (p : List PathElem), getPath v p = some .none →
      getPath (convertOut v) p = some (.str "null")) := by
  refine ⟨fun b => rfl, rfl, fun v p b hg => getPath_convertOut p v (.bool b) hg,
    fun v p hg => getPath_convertOut p v .none hg⟩

/-- C8 witness: the token theorem applied inside `{"a": True, "b": None}`. -/
theorem c8_bool_null_bare_tokens_witness :
    getPath (convertOut (.dict (.cons "a" (.bool true) (.cons "b" .none .nil)))) [.key "a"] =
      some (.str (cond true "true" "false")) ∧
    getPath (convertOut (.dict (.cons "a" (.bool true) (.cons "b" .none .nil)))) [.key "b"] =
      some (.str "null") :=
  ⟨c8_bool_null_bare_tokens.2.2.1 (.dict (.cons "a" (.bool true) (.cons "b" .none .nil)))
      [.key "a"] true (by decide),
   c8_bool_null_bare_tokens.2.2.2 (.dict (.cons "a" (.bool true) (.cons "b" .none .nil)))
      [.key "b"] (by decide)⟩

/-- C9: the interval token is `@"` followed by lowEnd, the low value,
` .. `, the high value and highEnd — and nothing else: no closing quote is
appended, so for a single-character highEnd such as `]` or `)` the token's
last character is that bracket, not a quote. -/
theorem c9_interval_token_unclosed :
    (∀ (le : String) (lo hi : PyVal) (he : String),
      convertOut (.tuple4 le lo hi he) =
        .str ("@\"" ++ le ++ pyStr lo ++ " .. " ++ pyStr hi ++ he)) ∧
    (∀ (le : String) (lo hi : PyVal) (c : Char), c = ']' ∨ c = ')' →
      ("@\"" ++ le ++ pyStr lo ++ " .. " ++ pyStr hi ++ String.mk [c]).data.getLast? =
          some c ∧ c ≠ '"') := by
  refine ⟨fun le lo hi he => rfl, fun le lo hi c hc => ⟨?_, ?_⟩⟩
  · show (("@\"" ++ le ++ pyStr lo ++ " .. " ++ pyStr hi).data ++ [c]).getLast? = some c
    exact List.getLast?_concat _
  · rcases hc with h | h <;> subst h <;> decide

/-- C9 witness: the unclosed-token theorem at the interval `('[', 1.0, 2.0, ']')`. -/
theorem c9_interval_token_unclosed_witness :
    convertOut (.tuple4 "[" (.float 1) (.float 2) "]") =
      .str ("@\"" ++ "[" ++ pyStr (.float 1) ++ " .. " ++ pyStr (.float 2) ++ "]") ∧
    ("@\"" ++ "[" ++ pyStr (.float 1) ++ " .. " ++ pyStr (.float 2) ++
        String.mk [']']).data.getLast? = some ']' ∧ (']' : Char) ≠ '"' :=
  ⟨c9_interval_token_unclosed.1 "[" (.float 1) (.float 2) "]",
   (c9_interval_token_unclosed.2 "[" (.float 1) (.float 2) ']' (Or.inl rfl)).1,
   (c9_interval_token_unclosed.2 "[" (.float 1) (.float 2) ']' (Or.inl rfl)).2⟩

/-- C2: on an engine call that reports no errors but returns an *empty*
outcome sequence, neither JSON path produces the `Result = {}`,
`Executed Rule = []` envelope the spec requires: `decision_service` raises
an IndexError at `newData[-1]` (line 887), and `decision_service_table`
skips the guarded reassignment but then subscripts the still-empty *list*
with `'Result'` (line 1024), a TypeError. -/
theorem c2_empty_outcome_faults :
    errOf (decisionServiceJson [] (.seq [])) = some .indexError ∧
    errOf (decisionServiceTableJson [] (.seq [])) = some .typeError := by
  decide

/-- C4: whenever the engine status contains an `'errors'` key, both JSON
paths short-circuit to the envelope with an empty result map, an empty
executed-rule list, and the engine status propagated verbatim, regardless
of the outcome. -/
theorem c4_error_status_shortcircuit :
    ∀ (status : Status) (newData : Outcome), hasErrors status = true →
      decisionServiceJson status newData = .ok ⟨[], [], status⟩ ∧
      decisionServiceTableJson status newData = .ok ⟨[], [], status⟩ := by
  intro st nd h
  constructor
  · simp [decisionServiceJson, h]
  · simp [decisionServiceTableJson, h]

/-- C4 witness: the short-circuit theorem at a concrete error status. -/
theorem c4_error_status_shortcircuit_witness :
    decisionServiceJson [("errors", .list .nil)] (.one ⟨[], Option.none⟩) =
      .ok ⟨[], [], [("errors", .list .nil)]⟩ ∧
    decisionServiceTableJson [("errors", .list .nil)] (.one ⟨[], Option.none⟩) =
      .ok ⟨[], [], [("errors", .list .nil)]⟩ :=
  c4_error_status_shortcircuit [("errors", .list .nil)] (.one ⟨[], Option.none⟩) (by decide)

/-- C6 counterexample: a decide response for a single-record outcome with a
single rule trace does *not* contain a one-element list of
`[decision, table, ruleId]` triples — both call sites append the three
components individually, producing the flat list `[d, t, r]` of bare
strings (src/app.py lines 889-892 and 1019-1022). -/
theorem c6_single_record_counterexample :
    erOf (decisionServiceJson []
        (.one ⟨[("x", .str "v")], some (.single ⟨"d", "t", "r"⟩)⟩)) =
      [.strElem "d", .strElem "t", .strElem "r"] ∧
    erOf (decisionServiceTableJson []
        (.one ⟨[("x", .str "v")], some (.single ⟨"d", "t", "r"⟩)⟩)) =
      [.strElem "d", .strElem "t", .strElem "r"] ∧
    [ERElem.strElem "d", .strElem "t", .strElem "r"] ≠ [ERElem.triple "d" "t" "r"] := by
  decide

/-- C6 (amended): when the outcome is a (non-empty) *sequence* of records
each carrying an `'Executed Rule'` entry, both JSON paths produce
`Executed Rule` as the ordered flat list of three-element
`[decision, table, ruleId]` triples across the records; a single
DecisionRecord is *not* treated as a one-element sequence — its lone trace
is appended component-wise, yielding the flat `[decision, table, ruleId]`
instead of a list of triples. -/
theorem c6_executed_rule_flattening :
    (∀ (status : Status) (rs : List DRecord), hasErrors status = false → rs ≠ [] →
      (∀ r ∈ rs, r.executedRule ≠ Option.none) →
      erOf (decisionServiceJson status (.seq rs)) = specTriples rs ∧
      erOf (decisionServiceTableJson status (.seq rs)) = specTriples rs) ∧
    (∀ (status : Status) (res : List (String × PyVal)) (d t r : String),
      hasErrors status = false →
      erOf (decisionServiceJson status (.one ⟨res, some (.single ⟨d, t, r⟩)⟩)) =
        [.strElem d, .strElem t, .strElem r] ∧
      erOf (decisionServiceTableJson status (.one ⟨res, some (.single ⟨d, t, r⟩)⟩)) =
        [.strElem d, .strElem t, .strElem r]) := by
  constructor
  · intro st rs h hne hall
    have hf := flattenSeqER_ok rs hall
    cases hl : rs.getLast? with
    | none => exact absurd (List.getLast?_eq_none_iff.mp hl) hne
    | some last =>
      constructor
      · simp [decisionServiceJson, h, hf, hl, erOf]
      · simp [decisionServiceTableJson, h, hf, hl, erOf]
  · intro st res d t r h
    constructor
    · simp [decisionServiceJson, h, erOf]
    · simp [decisionServiceTableJson, h, erOf]

/-- C6 witness: the flattening theorem at a two-record sequence (one trace,
then two traces) and at a concrete single record. -/
theorem c6_executed_rule_flattening_witness :
    erOf (decisionServiceJson []
        (.seq [⟨[], some (.single ⟨"d1", "t1", "r1"⟩)⟩,
               ⟨[], some (.multi [⟨"d2", "t2", "r2"⟩, ⟨"d3", "t3", "r3"⟩])⟩])) =
      specTriples [⟨[], some (.single ⟨"d1", "t1", "r1"⟩)⟩,
                   ⟨[], some (.multi [⟨"d2", "t2", "r2"⟩, ⟨"d3", "t3", "r3"⟩])⟩] ∧
    erOf (decisionServiceTableJson [] (.one ⟨[], some (.single ⟨"d", "t", "r"⟩)⟩)) =
      [.strElem "d", .strElem "t", .strElem "r"] :=
  ⟨(c6_executed_rule_flattening.1 []
      [⟨[], some (.single ⟨"d1", "t1", "r1"⟩)⟩,
       ⟨[], some (.multi [⟨"d2", "t2", "r2"⟩, ⟨"d3", "t3", "r3"⟩])⟩]
      (by decide) (by simp) (by decide)).1,
   (c6_executed_rule_flattening.2 [] [] "d" "t" "r" (by decide)).2⟩

/-- C5 counterexample: `convertOut` on a map does not leave its input
unchanged and does not return a detached value.  In the heap model, calling
it on the dict `{"a": True}` stored at reference 0 returns the *same*
reference, and afterwards the object at that reference holds the encoded
element `{"a": "true"}`, not its pre-call element. -/
theorem c5_mutation_counterexample :
    (hElemOut 1 [(0, .hdict [("a", .val (.bool true))])] (.ref 0)).2 = .ref 0 ∧
    lookupHeap (hElemOut 1 [(0, .hdict [("a", .val (.bool true))])] (.ref 0)).1 0 =
      some (.hdict [("a", .val (.str "true"))]) ∧
    some (HObj.hdict [("a", .val (.str "true"))]) ≠
      some (HObj.hdict [("a", .val (.bool true))]) := by
  decide

/-- C5 (amended): `convertOut` on a map or list mutates its argument in
place — each element is replaced by its encoded form — and returns the very
same object, aliasing its input rather than building a detached copy: in
the heap model, for a dict or list of scalar elements the call overwrites
the object at the argument's reference with the element-wise encoding and
returns that same reference. -/
theorem c5_inplace_encoding :
    (∀ (h : Heap) (r : Ref) (kvs : List (String × PyVal)) (fuel : ℕ),
      lookupHeap h r = some (.hdict (kvs.map (fun kv => (kv.1, HElem.val kv.2)))) →
      hElemOut (fuel + 1) h (.ref r) =
        (updateHeap h r (.hdict (kvs.map (fun kv => (kv.1, HElem.val (convertOut kv.2))))),
         .ref r)) ∧
    (∀ (h : Heap) (r : Ref) (xs : List PyVal) (fuel : ℕ),
      lookupHeap h r = some (.hlist (xs.map HElem.val)) →
      hElemOut (fuel + 1) h (.ref r) =
        (updateHeap h r (.hlist (xs.map (fun v => HElem.val (convertOut v)))), .ref r)) := by
  constructor
  · intro h r kvs fuel hlook
    simp only [hElemOut, hlook, hMapPairs_scalar]
  · intro h r xs fuel hlook
    simp only [hElemOut, hlook, hMapList_scalar]

/-- C5 witness: the in-place encoding theorem at the one-entry dict
`{"a": True}` stored at reference 0. -/
theorem c5_inplace_encoding_witness :
    hElemOut 1 [(0, .hdict [("a", .val (.bool true))])] (.ref 0) =
      (updateHeap [(0, .hdict [("a", .val (.bool true))])] 0
        (.hdict ([("a", PyVal.bool true)].map (fun kv => (kv.1, HElem.val (convertOut kv.2))))),
       .ref 0) :=
  c5_inplace_encoding.1 [(0, .hdict [("a", .val (.bool true))])] 0 [("a", .bool true)] 0
    (by decide)

/-- C7: the timedelta branch of `convertOut` produces
`@"<sign>P<days>DT<hours>H<minutes>M<seconds-with-6-decimals>S"` with the
sign taken from the sign of the total seconds, `days = floor(|s|/86400)`,
`hours = floor(|s|/3600) mod 24`, `minutes = floor(|s|/60) mod 60` and the
fractional seconds `|s| mod 60` printed with six decimal places; in
particular 1 day, 2 hours, 3 minutes, 4.5 seconds encodes to
`@"P1DT2H3M4.500000S"`. -/
theorem c7_daytime_token_formula :
    (∀ micros : ℤ,
      convertOut (.timedelta micros) =
        .str ("@\"" ++ (if micros < 0 then "-" else "") ++ "P" ++
          intStr ⌊|(micros : ℚ) / 1000000| / 86400⌋ ++ "DT" ++
          intStr (⌊|(micros : ℚ) / 1000000| / 3600⌋ % 24) ++ "H" ++
          intStr (⌊|(micros : ℚ) / 1000000| / 60⌋ % 60) ++ "M" ++
          fmt6 (fmod |(micros : ℚ) / 1000000| 60) ++ "S\"")) ∧
    convertOut (.timedelta 93784500000) = .str "@\"P1DT2H3M4.500000S\"" := by
  constructor
  · intro micros
    show PyVal.str (dayTimeToken micros) = _
    rw [dayTimeToken_int]
    congr 1
    rw [abs_micro]
    have e1 : ⌊((micros.natAbs : ℕ) : ℚ) / 1000000 / 86400⌋ =
        ((micros.natAbs / 86400000000 : ℕ) : ℤ) := by
      have hx := floorDivK_micro micros.natAbs 86400
      simp only [Nat.cast_ofNat, show (1000000 * 86400 : ℕ) = 86400000000 from by norm_num] at hx
      exact hx
    have e2 : ⌊((micros.natAbs : ℕ) : ℚ) / 1000000 / 3600⌋ =
        ((micros.natAbs / 3600000000 : ℕ) : ℤ) := by
      have hx := floorDivK_micro micros.natAbs 3600
      simp only [Nat.cast_ofNat, show (1000000 * 3600 : ℕ) = 3600000000 from by norm_num] at hx
      exact hx
    have e3 : ⌊((micros.natAbs : ℕ) : ℚ) / 1000000 / 60⌋ =
        ((micros.natAbs / 60000000 : ℕ) : ℤ) := by
      have hx := floorDivK_micro micros.natAbs 60
      simp only [Nat.cast_ofNat, show (1000000 * 60 : ℕ) = 60000000 from by norm_num] at hx
      exact hx
    have m24 : ((micros.natAbs / 3600000000 : ℕ) : ℤ) % 24 =
        ((micros.natAbs / 3600000000 % 24 : ℕ) : ℤ) := by norm_cast
    have m60 : ((micros.natAbs / 60000000 : ℕ) : ℤ) % 60 =
        ((micros.natAbs / 60000000 % 60 : ℕ) : ℤ) := by norm_cast
    rw [e1, e2, e3, m24, m60, fmod_micro, fmt6_micro, intStr_natCast, intStr_natCast,
      intStr_natCast]
  · show PyVal.str (dayTimeToken 93784500000) = _
    rw [dayTimeToken_int]
    decide
